import Mathlib

/-!
Verification of the resumable concurrent extraction pipeline of the
clash_bot repository.  The definitions below are shallow embeddings of the
Python source files under src/ (scrape_no_restart.py, scrape.py,
multiwindow.py, notScrape.py): pure functions become Lean functions,
file contents become lists of lines, fallible code returns Except/Option,
and the worker queue protocol becomes an explicit step relation.
-/

namespace ClashBot

/-! ## Work partitioner

`split_tags` embeds `split_tags` from src/scrape_no_restart.py (lines 269-282):
`seg_length = total // TOTAL_WORKERS`, `start_idx = WORKER_ID * seg_length`,
the last worker takes `replay_tags[start_idx:]`, every other worker takes
`replay_tags[start_idx : start_idx + seg_length]`.

`get_fraction` embeds `get_fraction` from src/multiwindow.py (lines 232-240):
`chunk = total // n`, `start = i * chunk`,
`end = (i + 1) * chunk if i < n - 1 else total`, result `df.iloc[start:end]`.
-/

def split_tags {α : Type} (replay_tags : List α) (worker_id total_workers : Nat) : List α :=
  let seg_length := replay_tags.length / total_workers
  let start_idx := worker_id * seg_length
  if worker_id = total_workers - 1 then
    replay_tags.drop start_idx
  else
    (replay_tags.drop start_idx).take seg_length

def get_fraction {α : Type} (df : List α) (i n : Nat) : List α :=
  let total := df.length
  let chunk := total / n
  let start := i * chunk
  let stop := if i < n - 1 then (i + 1) * chunk else total
  (df.take stop).drop start

theorem split_tags_of_lt {α : Type} (l : List α) (i n : Nat) (h : i + 1 < n) :
    split_tags l i n = (l.drop (i * (l.length / n))).take (l.length / n) := by
  have : i ≠ n - 1 := by omega
  simp [split_tags, this]

theorem split_tags_last {α : Type} (l : List α) (n : Nat) :
    split_tags l (n - 1) n = l.drop ((n - 1) * (l.length / n)) := by
  simp [split_tags]

theorem shards_prefix {α : Type} (l : List α) (n : Nat) :
    ∀ k, k + 1 ≤ n →
      ((List.range k).map (fun i => split_tags l i n)).flatten
        = l.take (k * (l.length / n)) := by
  intro k
  induction k with
  | zero => simp
  | succ k ih =>
    intro hk
    rw [List.range_succ, List.map_append, List.flatten_append,
      ih (by omega)]
    simp only [List.map_cons, List.map_nil, List.flatten_cons, List.flatten_nil,
      List.append_nil]
    rw [split_tags_of_lt l k n (by omega), Nat.succ_mul, List.take_add]

/-- C3: sharding partitions the input exactly.  For every identifier list and
every shard count `n > 0`, shard `i` (with `i + 1 < n`) is the contiguous
slice of length `len/n` starting at `i*(len/n)`, the final shard absorbs the
remainder, the concatenation of shards `0..n-1` equals the original list (no
duplication, no omission, also when `n` does not divide the length), and
`get_fraction` of src/multiwindow.py produces the same shards as `split_tags`
of src/scrape_no_restart.py. -/
theorem split_tags_partition {α : Type} (l : List α) (n : Nat) (hn : 0 < n) :
    ((List.range n).map (fun i => split_tags l i n)).flatten = l ∧
    (∀ i, i + 1 < n →
      split_tags l i n = (l.drop (i * (l.length / n))).take (l.length / n)) ∧
    split_tags l (n - 1) n = l.drop ((n - 1) * (l.length / n)) ∧
    (∀ i, i < n → get_fraction l i n = split_tags l i n) := by
  refine ⟨?_, fun i hi => split_tags_of_lt l i n hi, split_tags_last l n, ?_⟩
  · obtain ⟨m, rfl⟩ : ∃ m, n = m + 1 := ⟨n - 1, by omega⟩
    rw [List.range_succ, List.map_append, List.flatten_append,
      shards_prefix l (m + 1) m (by omega)]
    simp only [List.map_cons, List.map_nil, List.flatten_cons, List.flatten_nil,
      List.append_nil]
    have h1 : split_tags l m (m + 1) = l.drop (m * (l.length / (m + 1))) := by
      simpa using split_tags_last l (m + 1)
    rw [h1, List.take_append_drop]
  · intro i hi
    rcases Nat.lt_or_ge (i + 1) n with h | h
    · rw [split_tags_of_lt l i n h]
      have hif : i < n - 1 := by omega
      simp only [get_fraction, if_pos hif]
      have hc : (i + 1) * (l.length / n) - i * (l.length / n) = l.length / n := by
        rw [Nat.succ_mul, Nat.add_sub_cancel_left]
      rw [List.drop_take, hc]
    · have hlast : i = n - 1 := by omega
      subst hlast
      rw [split_tags_last]
      have hif : ¬ (n - 1 < n - 1) := by omega
      simp only [get_fraction, if_neg hif]
      rw [List.take_length]

/-- Witness for C3 at a concrete input: 7 identifiers over 3 shards
(3 does not divide 7). -/
theorem split_tags_partition_witness :
    ((List.range 3).map (fun i => split_tags [10, 20, 30, 40, 50, 60, 70] i 3)).flatten
      = [10, 20, 30, 40, 50, 60, 70] :=
  (split_tags_partition [10, 20, 30, 40, 50, 60, 70] 3 (by decide)).1

/-! ## Python strings

Python str values are embedded as lists of characters so that every string
operation of the source is executable and kernel-evaluable.  `pyStrip`
embeds `str.strip()`, `pySplit` embeds `str.split(sep)` for a nonempty
separator (leftmost-match scan, adjacent separators produce empty fields),
and `pyInt?` embeds `int(x)` applied to an optional string (returning `none`
both for a `None` argument, a TypeError in Python, and for a string that is
not an optionally signed decimal numeral, a ValueError in Python). -/

abbrev PyStr := List Char

def pyStrip (s : PyStr) : PyStr :=
  ((s.dropWhile Char.isWhitespace).reverse.dropWhile Char.isWhitespace).reverse

def startsWithSeq : PyStr → PyStr → Bool
  | _, [] => true
  | [], _ :: _ => false
  | a :: as, b :: bs => a = b && startsWithSeq as bs

def pySplitFuel (sep : PyStr) : Nat → PyStr → PyStr → List PyStr
  | 0, s, acc => [acc.reverse ++ s]
  | _ + 1, [], acc => [acc.reverse]
  | fuel + 1, c :: rest, acc =>
    if startsWithSeq (c :: rest) sep then
      acc.reverse :: pySplitFuel sep fuel ((c :: rest).drop sep.length) []
    else
      pySplitFuel sep fuel rest (c :: acc)

def pySplit (s sep : PyStr) : List PyStr :=
  if sep.isEmpty then [s] else pySplitFuel sep (s.length + 1) s []

def digitsVal? (l : PyStr) : Option Nat :=
  if l ≠ [] ∧ l.all Char.isDigit then
    some (l.foldl (fun a c => 10 * a + (c.toNat - Char.toNat '0')) 0)
  else none

def pyIntOfStr? (s : PyStr) : Option Int :=
  match pyStrip s with
  | '-' :: rest => (digitsVal? rest).map (fun n => -(n : Int))
  | '+' :: rest => (digitsVal? rest).map (fun n => (n : Int))
  | t => (digitsVal? t).map (fun n => (n : Int))

def pyInt? (x : Option PyStr) : Option Int :=
  x.bind pyIntOfStr?

/-! ## Paired-sequence reconciler

The data model and `parse_replay_html` embed lines 57-121 of
src/scrape_no_restart.py (the same algorithm appears inline in
src/scrape.py lines 48-86).  A card event carries the attributes read from
one `img.replay_card` element, a placement event the attributes of one
`div.markers > div` element; absent attributes are `none` (BeautifulSoup
`get` returns `None`).  The card events are sorted by `int(time)` before
pairing (Python `sorted` is stable; it is embedded as stable insertion
sort); the placement events are used in document order.  Every exception
the Python code can raise inside `parse_replay_html` is an `Except.error`:
`badTime` for the ValueError/TypeError of `int` on an unparsable or absent
time while sorting, `lengthMismatch` and `timeMismatch` for the two raised
ValueErrors, and `missingImageSrc` for the AttributeError of
`None.split` when an ability event has no `src` attribute. -/

structure CardEvent where
  card_name : Option PyStr
  image_src : Option PyStr
  side : Option PyStr
  time : Option PyStr
  isAbility : Option PyStr
deriving Repr, DecidableEq

structure PlacementEvent where
  x : Option PyStr
  y : Option PyStr
  time : Option PyStr
deriving Repr, DecidableEq

structure Row where
  replay_tag : PyStr
  side : Option PyStr
  time : Option PyStr
  isAbility : Option PyStr
  card_name : Option PyStr
  x : Option PyStr
  y : Option PyStr
deriving Repr, DecidableEq

inductive ParseError where
  | badTime : ParseError
  | lengthMismatch : Nat → Nat → ParseError
  | timeMismatch : Nat → Option PyStr → Option PyStr → ParseError
  | missingImageSrc : ParseError
deriving Repr, DecidableEq

def cardKey (c : CardEvent) : Int :=
  (pyInt? c.time).getD 0

def sortedCards (cards : List CardEvent) : List CardEvent :=
  List.insertionSort (fun a b => cardKey a ≤ cardKey b) cards

def sortCards? (cards : List CardEvent) : Option (List CardEvent) :=
  if cards.all (fun c => (pyInt? c.time).isSome) then some (sortedCards cards)
  else none

def abilityName (src : PyStr) : PyStr :=
  "ability-".toList ++
    ((pySplit ((pySplit src ("ability-".toList)).getLastD []) (".png".toList)).headD [])

def buildRow (replay_tag : PyStr) (ce : CardEvent) (pe : PlacementEvent) :
    Except ParseError Row :=
  if ce.isAbility = some ("1".toList) then
    match ce.image_src with
    | none => .error .missingImageSrc
    | some src =>
      .ok { replay_tag := replay_tag, side := ce.side, time := ce.time,
            isAbility := ce.isAbility, card_name := some (abilityName src),
            x := none, y := none }
  else
    .ok { replay_tag := replay_tag, side := ce.side, time := ce.time,
          isAbility := ce.isAbility, card_name := ce.card_name,
          x := pe.x, y := pe.y }

def mergeLoop (replay_tag : PyStr) :
    List CardEvent → List PlacementEvent → Nat → Except ParseError (List Row)
  | ce :: cs, pe :: ps, i =>
    if ce.time = pe.time then
      match buildRow replay_tag ce pe with
      | .error e => .error e
      | .ok r =>
        match mergeLoop replay_tag cs ps (i + 1) with
        | .error e => .error e
        | .ok rs => .ok (r :: rs)
    else
      .error (.timeMismatch i ce.time pe.time)
  | _, _, _ => .ok []

def parse_replay_html (cards : List CardEvent) (placements : List PlacementEvent)
    (replay_tag : PyStr) : Except ParseError (List Row) :=
  match sortCards? cards with
  | none => .error .badTime
  | some sorted =>
    if sorted.length ≠ placements.length then
      .error (.lengthMismatch sorted.length placements.length)
    else
      mergeLoop replay_tag sorted placements 0

theorem buildRow_time (tag : PyStr) (ce : CardEvent) (pe : PlacementEvent) (r : Row)
    (h : buildRow tag ce pe = .ok r) : r.time = ce.time := by
  unfold buildRow at h
  by_cases hab : ce.isAbility = some ("1".toList)
  · rw [if_pos hab] at h
    cases hsrc : ce.image_src with
    | none => rw [hsrc] at h; cases h
    | some src => rw [hsrc] at h; cases h; rfl
  · rw [if_neg hab] at h
    cases h
    rfl

theorem buildRow_isOk (tag : PyStr) (ce : CardEvent) (pe : PlacementEvent)
    (h : ce.isAbility = some ("1".toList) → ce.image_src.isSome) :
    ∃ r, buildRow tag ce pe = .ok r := by
  unfold buildRow
  by_cases hab : ce.isAbility = some ("1".toList)
  · rw [if_pos hab]
    rcases Option.isSome_iff_exists.mp (h hab) with ⟨src, hsrc⟩
    rw [hsrc]
    exact ⟨_, rfl⟩
  · rw [if_neg hab]
    exact ⟨_, rfl⟩

theorem sortCards?_eq_some (cards : List CardEvent)
    (hw : ∀ c ∈ cards, (pyInt? c.time).isSome) :
    sortCards? cards = some (sortedCards cards) := by
  unfold sortCards?
  rw [if_pos]
  rw [List.all_eq_true]
  intro c hc
  simpa using hw c hc

theorem length_sortedCards (cards : List CardEvent) :
    (sortedCards cards).length = cards.length :=
  (List.perm_insertionSort _ cards).length_eq

theorem mem_sortedCards {c : CardEvent} {cards : List CardEvent} :
    c ∈ sortedCards cards ↔ c ∈ cards :=
  (List.perm_insertionSort _ cards).mem_iff

theorem sortedCards_pairwise (cards : List CardEvent) :
    List.Pairwise (fun a b => cardKey a ≤ cardKey b) (sortedCards cards) := by
  haveI : IsTotal CardEvent (fun a b => cardKey a ≤ cardKey b) :=
    ⟨fun a b => Int.le_total _ _⟩
  haveI : IsTrans CardEvent (fun a b => cardKey a ≤ cardKey b) :=
    ⟨fun a b c hab hbc => le_trans hab hbc⟩
  exact List.sorted_insertionSort _ cards

theorem mergeLoop_ok (tag : PyStr) (cs : List CardEvent) :
    ∀ (ps : List PlacementEvent) (i : Nat) (rows : List Row),
      cs.length = ps.length →
      mergeLoop tag cs ps i = .ok rows →
      rows.length = cs.length ∧
      ∀ j (h1 : j < cs.length) (h2 : j < ps.length) (h3 : j < rows.length),
        (cs.get ⟨j, h1⟩).time = (ps.get ⟨j, h2⟩).time ∧
        buildRow tag (cs.get ⟨j, h1⟩) (ps.get ⟨j, h2⟩) = .ok (rows.get ⟨j, h3⟩) := by
  induction cs with
  | nil =>
    intro ps i rows hlen h
    cases ps with
    | nil =>
      simp only [mergeLoop] at h
      cases h
      exact ⟨rfl, fun j h1 => absurd h1 (by simp)⟩
    | cons pe ps => simp at hlen
  | cons ce cs ih =>
    intro ps i rows hlen h
    cases ps with
    | nil => simp at hlen
    | cons pe ps =>
      simp only [mergeLoop] at h
      by_cases ht : ce.time = pe.time
      · rw [if_pos ht] at h
        cases hb : buildRow tag ce pe with
        | error e => rw [hb] at h; cases h
        | ok r =>
          rw [hb] at h
          cases hm : mergeLoop tag cs ps (i + 1) with
          | error e => rw [hm] at h; cases h
          | ok rs =>
            rw [hm] at h
            cases h
            obtain ⟨hlen2, hspec⟩ := ih ps (i + 1) rs (by simpa using hlen) hm
            refine ⟨by simp [hlen2], ?_⟩
            intro j h1 h2 h3
            cases j with
            | zero => exact ⟨ht, hb⟩
            | succ j =>
              exact hspec j (by simpa using h1) (by simpa using h2) (by simpa using h3)
      · rw [if_neg ht] at h
        cases h

theorem mergeLoop_time_error (tag : PyStr) (cs : List CardEvent) :
    ∀ (ps : List PlacementEvent) (i k : Nat)
      (hk1 : k < cs.length) (hk2 : k < ps.length),
      (∀ j (h1 : j < cs.length) (h2 : j < ps.length), j < k →
        (cs.get ⟨j, h1⟩).time = (ps.get ⟨j, h2⟩).time ∧
        ∃ r, buildRow tag (cs.get ⟨j, h1⟩) (ps.get ⟨j, h2⟩) = .ok r) →
      (cs.get ⟨k, hk1⟩).time ≠ (ps.get ⟨k, hk2⟩).time →
      mergeLoop tag cs ps i
        = .error (.timeMismatch (i + k) (cs.get ⟨k, hk1⟩).time (ps.get ⟨k, hk2⟩).time) := by
  induction cs with
  | nil => intro ps i k hk1; simp at hk1
  | cons ce cs ih =>
    intro ps i k hk1 hk2 hpre hne
    cases ps with
    | nil => simp at hk2
    | cons pe ps =>
      cases k with
      | zero =>
        simp only [List.get_eq_getElem, List.getElem_cons_zero] at hne ⊢
        simp only [mergeLoop, Nat.add_zero]
        rw [if_neg hne]
      | succ k =>
        have hk1c : k < cs.length := by simpa using hk1
        have hk2c : k < ps.length := by simpa using hk2
        obtain ⟨ht0, r0, hb0⟩ := hpre 0 (by simp) (by simp) (by omega)
        simp only [List.get_eq_getElem, List.getElem_cons_zero] at ht0 hb0
        have hpre2 : ∀ j (h1 : j < cs.length) (h2 : j < ps.length), j < k →
            (cs.get ⟨j, h1⟩).time = (ps.get ⟨j, h2⟩).time ∧
            ∃ r, buildRow tag (cs.get ⟨j, h1⟩) (ps.get ⟨j, h2⟩) = .ok r := by
          intro j h1 h2 hj
          have hj1 : j + 1 < (ce :: cs).length := by simpa using h1
          have hj2 : j + 1 < (pe :: ps).length := by simpa using h2
          have := hpre (j + 1) hj1 hj2 (by omega)
          simpa using this
        have hne2 : (cs.get ⟨k, hk1c⟩).time ≠ (ps.get ⟨k, hk2c⟩).time := by
          simpa using hne
        have hrec := ih ps (i + 1) k hk1c hk2c hpre2 hne2
        have harith : i + 1 + k = i + (k + 1) := by omega
        rw [harith] at hrec
        simp only [List.get_eq_getElem, List.getElem_cons_succ]
        simp only [mergeLoop]
        rw [if_pos ht0, hb0, hrec]
        rfl

theorem parse_replay_html_sorted_eq (cards : List CardEvent)
    (placements : List PlacementEvent) (tag : PyStr)
    (hw : ∀ c ∈ cards, (pyInt? c.time).isSome) :
    parse_replay_html cards placements tag =
      if (sortedCards cards).length ≠ placements.length then
        .error (.lengthMismatch (sortedCards cards).length placements.length)
      else mergeLoop tag (sortedCards cards) placements 0 := by
  unfold parse_replay_html
  rw [sortCards?_eq_some cards hw]

/-- C4: reconciler invariants.  With well-formed card events (integer-parsable
time fields, ability events carrying an image source), `parse_replay_html`
raises the structural length-mismatch error whenever the card and placement
sequences have unequal lengths; for equal-length sequences it raises an error
identifying the index `k` at the first index whose time fields differ (the
card sequence being the time-sorted one that the code pairs positionally);
and it produces merged records only when both invariants hold at every
index. -/
theorem parse_replay_html_invariants (cards : List CardEvent)
    (placements : List PlacementEvent) (tag : PyStr)
    (hw : ∀ c ∈ cards, (pyInt? c.time).isSome)
    (hsrc : ∀ c ∈ cards, c.isAbility = some ("1".toList) → c.image_src.isSome) :
    (cards.length ≠ placements.length →
      parse_replay_html cards placements tag
        = .error (.lengthMismatch cards.length placements.length)) ∧
    (∀ k (hk1 : k < (sortedCards cards).length) (hk2 : k < placements.length),
      cards.length = placements.length →
      (∀ j (h1 : j < (sortedCards cards).length) (h2 : j < placements.length), j < k →
        ((sortedCards cards).get ⟨j, h1⟩).time = (placements.get ⟨j, h2⟩).time) →
      ((sortedCards cards).get ⟨k, hk1⟩).time ≠ (placements.get ⟨k, hk2⟩).time →
      parse_replay_html cards placements tag
        = .error (.timeMismatch k ((sortedCards cards).get ⟨k, hk1⟩).time
            (placements.get ⟨k, hk2⟩).time)) ∧
    (∀ rows, parse_replay_html cards placements tag = .ok rows →
      cards.length = placements.length ∧
      ∀ j (h1 : j < (sortedCards cards).length) (h2 : j < placements.length),
        ((sortedCards cards).get ⟨j, h1⟩).time = (placements.get ⟨j, h2⟩).time) := by
  have hplen : (sortedCards cards).length = cards.length := length_sortedCards cards
  have hok : ∀ j (h1 : j < (sortedCards cards).length) (h2 : j < placements.length),
      ∃ r, buildRow tag ((sortedCards cards).get ⟨j, h1⟩) (placements.get ⟨j, h2⟩) = .ok r := by
    intro j h1 h2
    apply buildRow_isOk
    apply hsrc
    rw [← mem_sortedCards]
    exact List.get_mem _ _ _
  refine ⟨?_, ?_, ?_⟩
  · intro hne
    rw [parse_replay_html_sorted_eq cards placements tag hw,
      if_pos (show (sortedCards cards).length ≠ placements.length from by
        rw [hplen]; exact hne), hplen]
  · intro k hk1 hk2 hleq hpre hne
    rw [parse_replay_html_sorted_eq cards placements tag hw,
      if_neg (not_ne_iff.mpr (by rw [hplen]; exact hleq))]
    have := mergeLoop_time_error tag (sortedCards cards) placements 0 k hk1 hk2
      (fun j h1 h2 hj => ⟨hpre j h1 h2 hj, hok j h1 h2⟩) hne
    simpa using this
  · intro rows hrows
    rw [parse_replay_html_sorted_eq cards placements tag hw] at hrows
    by_cases hlen : (sortedCards cards).length = placements.length
    · rw [if_neg (not_ne_iff.mpr hlen)] at hrows
      obtain ⟨hlenr, hspec⟩ := mergeLoop_ok tag (sortedCards cards) placements 0 rows hlen hrows
      refine ⟨by omega, ?_⟩
      intro j h1 h2
      obtain ⟨hteq, _⟩ := hspec j h1 h2 (by omega)
      exact hteq
    · rw [if_pos hlen] at hrows
      cases hrows

/-- Witness for C4 at concrete inputs: one well-formed card event against an
empty placement list triggers the length-mismatch error. -/
theorem parse_replay_html_invariants_witness :
    parse_replay_html
      [{ card_name := some ("knight".toList), image_src := none,
         side := some ("b".toList), time := some ("1".toList), isAbility := none }]
      [] ("t".toList)
      = .error (.lengthMismatch 1 0) :=
  (parse_replay_html_invariants
    [{ card_name := some ("knight".toList), image_src := none,
       side := some ("b".toList), time := some ("1".toList), isAbility := none }]
    [] ("t".toList) (by decide) (by decide)).1 (by decide)

theorem sortCards?_some_inv (cards : List CardEvent) (l : List CardEvent)
    (h : sortCards? cards = some l) :
    l = sortedCards cards ∧ ∀ c ∈ cards, (pyInt? c.time).isSome := by
  unfold sortCards? at h
  by_cases hall : cards.all fun c => (pyInt? c.time).isSome
  · rw [if_pos hall] at h
    refine ⟨(Option.some.inj h).symm, ?_⟩
    intro c hc
    have := List.all_eq_true.mp hall c hc
    simpa using this
  · rw [if_neg hall] at h
    cases h

theorem parse_ok_times_wellformed (cards : List CardEvent)
    (placements : List PlacementEvent) (tag : PyStr) (rows : List Row)
    (h : parse_replay_html cards placements tag = .ok rows) :
    ∀ c ∈ cards, (pyInt? c.time).isSome := by
  unfold parse_replay_html at h
  cases hs : sortCards? cards with
  | none => rw [hs] at h; cases h
  | some sorted => exact (sortCards?_some_inv cards sorted hs).2

def rowKey (r : Row) : Int :=
  (pyInt? r.time).getD 0

/-- C5 (amended): for every successfully reconciled unit the merged record
sequence is ordered by ascending time index.  The card events are sorted by
their integer time key before pairing; the placement events are NOT sorted by
the code, but the alignment invariant forces their time fields to equal the
sorted card times positionally, so the merged output is ascending anyway. -/
theorem parse_rows_time_sorted (cards : List CardEvent)
    (placements : List PlacementEvent) (tag : PyStr) (rows : List Row)
    (h : parse_replay_html cards placements tag = .ok rows) :
    rows.Pairwise (fun a b => rowKey a ≤ rowKey b) := by
  have hw := parse_ok_times_wellformed cards placements tag rows h
  rw [parse_replay_html_sorted_eq cards placements tag hw] at h
  by_cases hlen : (sortedCards cards).length = placements.length
  · rw [if_neg (not_ne_iff.mpr hlen)] at h
    obtain ⟨hlenr, hspec⟩ := mergeLoop_ok tag (sortedCards cards) placements 0 rows hlen h
    have hpair := sortedCards_pairwise cards
    rw [List.pairwise_iff_getElem] at hpair
    rw [List.pairwise_iff_getElem]
    intro a b ha hb hab
    have ha2 : a < (sortedCards cards).length := by omega
    have hb2 : b < (sortedCards cards).length := by omega
    have ha3 : a < placements.length := by omega
    have hb3 : b < placements.length := by omega
    have e1 : (rows.get ⟨a, ha⟩).time = ((sortedCards cards).get ⟨a, ha2⟩).time :=
      buildRow_time _ _ _ _ ((hspec a ha2 ha3 ha).2)
    have e2 : (rows.get ⟨b, hb⟩).time = ((sortedCards cards).get ⟨b, hb2⟩).time :=
      buildRow_time _ _ _ _ ((hspec b hb2 hb3 hb).2)
    have hk := hpair a b ha2 hb2 hab
    simp only [List.get_eq_getElem] at e1 e2
    show rowKey _ ≤ rowKey _
    simp only [rowKey, cardKey, e1, e2] at hk ⊢
    exact hk
  · rw [if_pos hlen] at h
    cases h

/-- Concrete fixtures used by the witnesses and counterexamples below: two
well-formed card events with times 1 and 2, matching placement events, an
ability card event whose image source contains no marker and no trailing
suffix, and the rows the code produces for them. -/
def cardKnight1 : CardEvent :=
  { card_name := some ("knight".toList), image_src := none,
    side := some ("b".toList), time := some ("1".toList), isAbility := none }

def cardArcher2 : CardEvent :=
  { card_name := some ("archer".toList), image_src := none,
    side := some ("r".toList), time := some ("2".toList), isAbility := some ("0".toList) }

def placeTime1 : PlacementEvent :=
  { x := some ("10".toList), y := some ("3".toList), time := some ("1".toList) }

def placeTime2 : PlacementEvent :=
  { x := some ("11".toList), y := some ("4".toList), time := some ("2".toList) }

def rowKnight1 : Row :=
  { replay_tag := "t".toList, side := some ("b".toList), time := some ("1".toList),
    isAbility := none, card_name := some ("knight".toList),
    x := some ("10".toList), y := some ("3".toList) }

def rowArcher2 : Row :=
  { replay_tag := "t".toList, side := some ("r".toList), time := some ("2".toList),
    isAbility := some ("0".toList), card_name := some ("archer".toList),
    x := some ("11".toList), y := some ("4".toList) }

def abilityCardStar : CardEvent :=
  { card_name := some ("zap".toList), image_src := some ("star.pngextra".toList),
    side := some ("b".toList), time := some ("1".toList), isAbility := some ("1".toList) }

def rowAbilityStar : Row :=
  { replay_tag := "t".toList, side := some ("b".toList), time := some ("1".toList),
    isAbility := some ("1".toList), card_name := some ("ability-star".toList),
    x := none, y := none }

/-- Witness for C5 at a concrete input: parsing card events given out of time
order with matching placements succeeds and the output rows are ascending. -/
theorem parse_rows_time_sorted_witness :
    ([rowKnight1, rowArcher2] : List Row).Pairwise (fun a b => rowKey a ≤ rowKey b) :=
  parse_rows_time_sorted [cardArcher2, cardKnight1] [placeTime1, placeTime2]
    ("t".toList) [rowKnight1, rowArcher2] rfl

def placementKey (p : PlacementEvent) : Int :=
  (pyInt? p.time).getD 0

/-- Modelled from the spec: section 4.6 states that both source sequences are
pre-sorted by the Extractor before pairing.  This variant additionally sorts
the placement events by their time key before pairing; the code in
src/scrape_no_restart.py sorts only the card events (line 72) and uses the
placement events in document order (lines 74-82). -/
def parse_replay_html_bothSorted (cards : List CardEvent)
    (placements : List PlacementEvent) (tag : PyStr) : Except ParseError (List Row) :=
  parse_replay_html cards
    (List.insertionSort (fun a b => placementKey a ≤ placementKey b) placements) tag

/-- C5 counterexample: the placement events are NOT sorted by their time field
before positional pairing.  With card times 1,2 and placement events arriving
in order 2,1 the code raises a time mismatch at index 0, while the
spec-modelled variant that sorts both sequences reconciles successfully; so
the claim that both source sequences are sorted before pairing is false of
the code. -/
theorem placements_not_presorted :
    parse_replay_html [cardKnight1, cardArcher2] [placeTime2, placeTime1] ("t".toList)
      = .error (.timeMismatch 0 (some ("1".toList)) (some ("2".toList))) ∧
    parse_replay_html_bothSorted [cardKnight1, cardArcher2] [placeTime2, placeTime1]
      ("t".toList) = .ok [rowKnight1, rowArcher2] :=
  ⟨rfl, rfl⟩

/-- C9: discriminator merge rule.  For every reconciled index, when the card
event flag isAbility equals "1" the merged record has null x and y and its
card_name is derived from the image source through abilityName; otherwise
card_name is copied from the card event and x, y verbatim from the placement
event at the same index. -/
theorem parse_merge_rule (cards : List CardEvent) (placements : List PlacementEvent)
    (tag : PyStr) (rows : List Row)
    (h : parse_replay_html cards placements tag = .ok rows) :
    ∀ j (h1 : j < (sortedCards cards).length) (h2 : j < placements.length)
      (h3 : j < rows.length),
      (((sortedCards cards).get ⟨j, h1⟩).isAbility = some ("1".toList) →
        (rows.get ⟨j, h3⟩).x = none ∧ (rows.get ⟨j, h3⟩).y = none ∧
        ∃ src, ((sortedCards cards).get ⟨j, h1⟩).image_src = some src ∧
          (rows.get ⟨j, h3⟩).card_name = some (abilityName src)) ∧
      (((sortedCards cards).get ⟨j, h1⟩).isAbility ≠ some ("1".toList) →
        (rows.get ⟨j, h3⟩).card_name = ((sortedCards cards).get ⟨j, h1⟩).card_name ∧
        (rows.get ⟨j, h3⟩).x = (placements.get ⟨j, h2⟩).x ∧
        (rows.get ⟨j, h3⟩).y = (placements.get ⟨j, h2⟩).y) := by
  have hw := parse_ok_times_wellformed cards placements tag rows h
  rw [parse_replay_html_sorted_eq cards placements tag hw] at h
  by_cases hlen : (sortedCards cards).length = placements.length
  · rw [if_neg (not_ne_iff.mpr hlen)] at h
    obtain ⟨hlenr, hspec⟩ := mergeLoop_ok tag (sortedCards cards) placements 0 rows hlen h
    intro j h1 h2 h3
    have hb := (hspec j h1 h2 h3).2
    constructor
    · intro hab
      unfold buildRow at hb
      rw [if_pos hab] at hb
      cases hsrc : ((sortedCards cards).get ⟨j, h1⟩).image_src with
      | none => rw [hsrc] at hb; cases hb
      | some src =>
        rw [hsrc] at hb
        injection hb with hb
        rw [← hb]
        exact ⟨rfl, rfl, src, rfl, rfl⟩
    · intro hab
      unfold buildRow at hb
      rw [if_neg hab] at hb
      injection hb with hb
      rw [← hb]
      exact ⟨rfl, rfl, rfl⟩
  · rw [if_pos hlen] at h
    cases h

/-- Witness for C9 at a concrete input: an ability event produces a record
with null spatial fields and a derived name. -/
theorem parse_merge_rule_witness :
    rowAbilityStar.x = none ∧ rowAbilityStar.y = none ∧
    ∃ src, abilityCardStar.image_src = some src ∧
      rowAbilityStar.card_name = some (abilityName src) := by
  have h := parse_merge_rule [abilityCardStar] [placeTime1] ("t".toList)
    [rowAbilityStar] rfl 0 (by decide) (by decide) (by decide)
  exact h.1 (by decide)

/-- C10 counterexample: with image source "star.pngextra", which contains no
"ability-" marker and no trailing ".png" suffix but ".png" in the middle,
the code truncates at the FIRST occurrence of ".png" and produces
"ability-star", not "ability-" followed by the entire string with any
trailing ".png" suffix removed, which would be "ability-star.pngextra". -/
theorem ability_name_not_suffix_strip :
    parse_replay_html [abilityCardStar] [placeTime1] ("t".toList)
      = .ok [rowAbilityStar] ∧
    rowAbilityStar.card_name = some ("ability-star".toList) ∧
    ("ability-star".toList : PyStr) ≠ ("ability-star.pngextra".toList) :=
  ⟨rfl, rfl, by decide⟩

/-- C10 (amended): for every card event with isAbility = "1" whose image
source is a string, the name derivation is total (the row is built, no error
is raised) and produces "ability-" followed by the segment after the last
"ability-" marker truncated at the first ".png" occurrence; in particular,
when no marker occurs the result is "ability-" followed by the part of the
whole string before its first ".png" occurrence.  When the image source
attribute is absent (None in Python), the ability branch raises
(AttributeError), embedded as the missingImageSrc error. -/
theorem ability_derivation_total (tag : PyStr) (ce : CardEvent) (pe : PlacementEvent)
    (src : PyStr) (hab : ce.isAbility = some ("1".toList))
    (hsrc : ce.image_src = some src) :
    buildRow tag ce pe
      = .ok { replay_tag := tag, side := ce.side, time := ce.time,
              isAbility := ce.isAbility, card_name := some (abilityName src),
              x := none, y := none } ∧
    (∀ (s pre : PyStr) (rest : List PyStr), pySplit s ("ability-".toList) = [s] →
      pySplit s (".png".toList) = pre :: rest →
      abilityName s = "ability-".toList ++ pre) ∧
    (∀ (ce2 : CardEvent) (pe2 : PlacementEvent), ce2.isAbility = some ("1".toList) →
      ce2.image_src = none → buildRow tag ce2 pe2 = .error .missingImageSrc) := by
  refine ⟨?_, ?_, ?_⟩
  · unfold buildRow
    rw [if_pos hab, hsrc]
  · intro s pre rest h1 h2
    unfold abilityName
    rw [h1]
    have hlast : ([s] : List PyStr).getLastD [] = s := rfl
    rw [hlast, h2]
    rfl
  · intro ce2 pe2 hab2 hsrc2
    unfold buildRow
    rw [if_pos hab2, hsrc2]

/-- Witness for C10 (amended) at a concrete input. -/
theorem ability_derivation_total_witness :
    buildRow ("t".toList) abilityCardStar placeTime1
      = .ok { replay_tag := "t".toList, side := abilityCardStar.side,
              time := abilityCardStar.time, isAbility := abilityCardStar.isAbility,
              card_name := some (abilityName ("star.pngextra".toList)),
              x := none, y := none } :=
  (ability_derivation_total ("t".toList) abilityCardStar placeTime1
    ("star.pngextra".toList) rfl rfl).1

/-! ## Checkpoint resolver

`reach_current` embeds `reach_current` from src/scrape_no_restart.py
(lines 284-301).  The persisted output destination is `none` when
`os.path.exists(OUTPUT_CSV)` is false, otherwise the list of the lines of
the file as iterated by the `tail` helper (`for last in f`); a file with no
lines leaves `last = None`, embedded as `getLast? = none`, and the falsy
check `if last_line:` is the emptiness test.  The resume identifier is
`last_line.split(",")[0].strip()`, and `replay_tags.index(final_id)` finds
the first index whose element equals it, the ValueError branch of the
try/except returning the shard unchanged. -/

def firstField (line : PyStr) : PyStr :=
  pyStrip ((pySplit line (",".toList)).headD [])

def reach_current (replay_tags : List PyStr) (output_file : Option (List PyStr)) :
    List PyStr :=
  match output_file with
  | none => replay_tags
  | some lines =>
    match lines.getLast? with
    | none => replay_tags
    | some last_line =>
      if last_line = [] then replay_tags
      else
        match List.findIdx? (fun t => t = firstField last_line) replay_tags with
        | some idx => replay_tags.drop (idx + 1)
        | none => replay_tags

/-- C1: checkpoint resolution.  For every shard of identifiers and every
persisted output whose last line is nonempty (a line produced by file
iteration always is): when the first comma-separated field of that last
line, stripped, occurs in the shard, the resolver returns exactly the suffix
strictly after its first occurrence; when it does not occur, the resolver
returns the full shard unchanged; and with no prior output file it returns
the full shard. -/
theorem reach_current_checkpoint (tags lines : List PyStr) (l : PyStr)
    (hl : lines.getLast? = some l) (hne : l ≠ []) :
    (∀ k (hk : k < tags.length),
      tags.get ⟨k, hk⟩ = firstField l →
      firstField l ∉ tags.take k →
      reach_current tags (some lines) = tags.drop (k + 1)) ∧
    (firstField l ∉ tags → reach_current tags (some lines) = tags) ∧
    reach_current tags none = tags := by
  refine ⟨?_, ?_, rfl⟩
  · intro k hk hget hnotbefore
    have hidx : List.findIdx? (fun t => t = firstField l) tags = some k := by
      rw [List.findIdx?_eq_some_iff_getElem]
      refine ⟨hk, by simpa using hget, ?_⟩
      intro j hj
      simp only [decide_eq_true_eq, Bool.not_eq_true]
      intro heq
      apply hnotbefore
      rw [← heq]
      have hjt : j < (tags.take k).length := by
        simp only [List.length_take]
        omega
      have hmem := List.get_mem (tags.take k) j hjt
      have hgetel : (tags.take k).get ⟨j, hjt⟩ = tags[j] := by
        simp [List.get_eq_getElem]
      rw [hgetel] at hmem
      exact hmem
    unfold reach_current
    simp only [hl]
    rw [if_neg hne, hidx]
  · intro hnot
    have hidx : List.findIdx? (fun t => t = firstField l) tags = none := by
      rw [List.findIdx?_eq_none_iff]
      intro x hx
      rw [decide_eq_false_iff_not]
      intro heq
      exact hnot (heq ▸ hx)
    unfold reach_current
    simp only [hl]
    rw [if_neg hne, hidx]

/-- Witness for C1 at a concrete input: a four-identifier shard, an output
file whose last line starts with the second identifier. -/
theorem reach_current_checkpoint_witness :
    reach_current ["a".toList, "b".toList, "c".toList, "d".toList]
      (some ["id,x".toList, "b,42".toList]) = ["c".toList, "d".toList] :=
  (reach_current_checkpoint ["a".toList, "b".toList, "c".toList, "d".toList]
    ["id,x".toList, "b,42".toList] ("b,42".toList) (by decide) (by decide)).1
    1 (by decide) (by decide) (by decide)

/-! ## Batch writer

`to_csv_lines` embeds the effect of `DataFrame.to_csv(OUTPUT_CSV,
index=False, mode=mode, header=header)` on the destination file (line 401
of src/scrape_no_restart.py): mode "a" appends to the existing contents,
any other mode replaces them; a true header writes the header line before
the data rows.  `run_writes` embeds the per-run batch loop of `main`
(lines 331-403): `first_write` starts at True at the beginning of every
run, `mode = "w" if first_write else "a"`, `header = first_write`,
empty batches are skipped before writing and before clearing
`first_write`. -/

def to_csv_lines (existing : List String) (mode : String) (header : Bool)
    (headerLine : String) (rows : List String) : List String :=
  (if mode = "a" then existing else []) ++
    (if header then [headerLine] else []) ++ rows

def batch_write_mode (first_write : Bool) : String :=
  if first_write then "w" else "a"

def run_writes (existing : List String) (headerLine : String)
    (batches : List (List String)) : List String :=
  (batches.foldl
    (fun st rows =>
      if rows = [] then st
      else (to_csv_lines st.1 (batch_write_mode st.2) st.2 headerLine rows, false))
    (existing, true)).1

/-- C2 (code bug): the output destination is NOT append-only across runs.
A first run over an empty destination writes the header and a data row.  A
later run starts with first_write = True again, so its first batch write
uses mode "w", which truncates the file: the previously persisted row
"a,1" is gone afterwards, contradicting the claimed append-only,
header-if-first semantics and undermining the resume logic of
reach_current, which reads this very file. -/
theorem first_write_truncates_previous_run :
    run_writes [] "hdr" [["a,1"]] = ["hdr", "a,1"] ∧
    run_writes ["hdr", "a,1"] "hdr" [["b,2"]] = ["hdr", "b,2"] ∧
    "a,1" ∈ (["hdr", "a,1"] : List String) ∧
    "a,1" ∉ run_writes ["hdr", "a,1"] "hdr" [["b,2"]] :=
  ⟨rfl, rfl, by decide, by decide⟩

/-! ## Worker failure containment

`worker_handle` embeds the per-unit body of `worker_task` in
src/scrape_no_restart.py (lines 223-227): the fetch outcome for a tag is
either a data frame (stored under the tag in `results`) or an exception
(caught whole by `except Exception`, which only prints); the loop then
continues with the next queue item either way.  The second component
collects the failure-log lines the worker persists, which is always the
empty list because the except branch writes no file.
`scrape_player_on_page_result` embeds the except branch of
`scrape_player_on_page` in src/multiwindow.py (lines 165-170), which
appends one line to ERROR_LOG_PATH and returns an empty row list. -/

def worker_handle (results : List (PyStr × List Row)) (tag : PyStr)
    (outcome : Except String (List Row)) : List (PyStr × List Row) × List String :=
  match outcome with
  | .ok df => (results ++ [(tag, df)], [])
  | .error _ => (results, [])

def worker_step_acc (st : List (PyStr × List Row) × List String)
    (q : PyStr × Except String (List Row)) :
    List (PyStr × List Row) × List String :=
  ((worker_handle st.1 q.1 q.2).1, st.2 ++ (worker_handle st.1 q.1 q.2).2)

def worker_loop (queue : List (PyStr × Except String (List Row))) :
    List (PyStr × List Row) × List String :=
  queue.foldl worker_step_acc ([], [])

def scrape_player_on_page_result (pid : String) {α : Type}
    (outcome : Except String (List α)) : List α × List String :=
  match outcome with
  | .ok rows => (rows, [])
  | .error e => ([], ["[" ++ pid ++ "] Error: " ++ e ++ "\n"])

/-- C6 counterexample: a failing unit in `worker_task` of
src/scrape_no_restart.py produces NO failure-log record, because the except
branch only prints.  The worker survives and still processes the later unit,
but nothing is persisted for the failed one, so the claim that every such
failure is recorded to a persistent failure log is false for this pipeline. -/
theorem worker_failure_not_recorded :
    worker_loop [("t1".toList, .error "boom"), ("t2".toList, .ok [])]
      = ([("t2".toList, [])], []) := rfl

theorem worker_loop_acc (queue : List (PyStr × Except String (List Row))) :
    ∀ acc : List (PyStr × List Row) × List String,
      queue.foldl worker_step_acc acc
        = (acc.1 ++ queue.filterMap (fun q =>
            match q.2 with
            | .ok df => some (q.1, df)
            | .error _ => none),
           acc.2) := by
  induction queue with
  | nil => intro acc; simp
  | cons q queue ih =>
    intro acc
    rw [List.foldl_cons, ih]
    cases hq : q.2 with
    | ok df =>
      simp [worker_step_acc, worker_handle, hq]
    | error e =>
      simp [worker_step_acc, worker_handle, hq]

/-- C6 (amended): every exception of the extractor is caught at the Worker
boundary: the worker loop is total, consumes the whole queue, and records
exactly the successful units in order, so failures never crash the Worker or
the job.  The failure-log guarantee holds for src/multiwindow.py, whose
except branch appends one line to the error log, but NOT for
src/scrape_no_restart.py, whose worker_task only prints the failure: its
persisted failure log is empty whatever happens. -/
theorem worker_failure_containment (queue : List (PyStr × Except String (List Row))) :
    (worker_loop queue).1 =
      queue.filterMap (fun q =>
        match q.2 with
        | .ok df => some (q.1, df)
        | .error _ => none) ∧
    (worker_loop queue).2 = [] ∧
    (∀ (pid e : String),
      scrape_player_on_page_result pid (Except.error e : Except String (List Row))
        = ([], ["[" ++ pid ++ "] Error: " ++ e ++ "\n"])) := by
  refine ⟨?_, ?_, fun pid e => rfl⟩
  · rw [worker_loop, worker_loop_acc queue ([], [])]
    simp
  · rw [worker_loop, worker_loop_acc queue ([], [])]

/-! ## Sentinel shutdown protocol

The batch queue protocol of src/scrape_no_restart.py: `main` enqueues the
batch tags followed by one `None` sentinel per worker (lines 350-356,
`for _ in range(MAX_WORKERS): await queue.put(None)`), and each
`worker_task` loops dequeuing one item at a time (lines 216-221): a `None`
item makes the worker mark it done and break out of its loop, any other
item is processed; nothing is ever put back on the queue.  `WorkerStep` is
the induced step relation on the shared state: some running worker dequeues
the head of the queue, either processing a tag or consuming a sentinel and
terminating. -/

structure QueueState where
  queue : List (Option PyStr)
  running : Nat
deriving Repr, DecidableEq

inductive WorkerStep : QueueState → QueueState → Prop where
  | work (t : PyStr) (rest : List (Option PyStr)) (running : Nat)
      (h : 0 < running) :
      WorkerStep ⟨some t :: rest, running⟩ ⟨rest, running⟩
  | sentinel (rest : List (Option PyStr)) (running : Nat) (h : 0 < running) :
      WorkerStep ⟨Option.none :: rest, running⟩ ⟨rest, running - 1⟩

def initialState (batch_tags : List PyStr) (pool : Nat) : QueueState :=
  ⟨batch_tags.map some ++ List.replicate pool Option.none, pool⟩

def QueueInv (s : QueueState) : Prop :=
  ∃ pending : List PyStr,
    s.queue = pending.map some ++ List.replicate s.running Option.none ∧
    (s.running = 0 → pending = [])

/-- C7 counterexample: a worker that dequeues the sentinel does NOT
re-enqueue it before exiting.  From the state with one queued sentinel and
one running worker, the code steps to empty queue and zero workers, and a
step that left the sentinel on the queue is impossible; the shutdown works
because main pre-enqueues one sentinel per worker, not because workers
re-enqueue it. -/
theorem sentinel_not_reenqueued :
    WorkerStep ⟨[Option.none], 1⟩ ⟨[], 0⟩ ∧
    ¬ WorkerStep ⟨[Option.none], 1⟩ ⟨[Option.none], 0⟩ := by
  constructor
  · exact WorkerStep.sentinel [] 1 (by decide)
  · intro h
    cases h

theorem queue_progress (s : QueueState) (hinv : QueueInv s) (hrun : 0 < s.running) :
    ∃ s2, WorkerStep s s2 := by
  obtain ⟨queue, running⟩ := s
  obtain ⟨pending, hq, hz⟩ := hinv
  simp only at hq hz hrun
  cases pending with
  | nil =>
    simp only [List.map_nil, List.nil_append] at hq
    cases hr : running with
    | zero => omega
    | succ n =>
      rw [hr, List.replicate_succ] at hq
      subst hq
      exact ⟨⟨List.replicate n Option.none, running - 1⟩,
        hr ▸ WorkerStep.sentinel (List.replicate n Option.none) running hrun⟩
  | cons p ps =>
    simp only [List.map_cons, List.cons_append] at hq
    subst hq
    exact ⟨⟨ps.map some ++ List.replicate running Option.none, running⟩,
      WorkerStep.work p (ps.map some ++ List.replicate running Option.none) running hrun⟩

/-- C7 (amended): main enqueues the batch tags followed by exactly pool-size
sentinels; each worker dequeues items in a loop and a worker that dequeues a
sentinel consumes it and exits WITHOUT re-enqueuing it.  The pool-size
sentinels therefore drain exactly the pool-size workers: the queue shape
invariant (pending tags then one sentinel per running worker) holds
initially and is preserved by every step, every step strictly shortens the
queue (nothing is ever re-enqueued), a state satisfying the invariant with a
running worker always has a step (no deadlock), and any stuck state has an
empty queue and zero running workers, so every worker terminates after the
work units are consumed. -/
theorem sentinel_protocol (batch_tags : List PyStr) (pool : Nat) (hpool : 0 < pool) :
    QueueInv (initialState batch_tags pool) ∧
    (∀ s s2, QueueInv s → WorkerStep s s2 → QueueInv s2) ∧
    (∀ s s2, WorkerStep s s2 → s2.queue.length + 1 = s.queue.length) ∧
    (∀ s, QueueInv s → 0 < s.running → ∃ s2, WorkerStep s s2) ∧
    (∀ s, QueueInv s → (¬ ∃ s2, WorkerStep s s2) → s.running = 0 ∧ s.queue = []) := by
  refine ⟨?_, ?_, ?_, ?_, ?_⟩
  · refine ⟨batch_tags, rfl, fun h0 => ?_⟩
    simp only [initialState] at h0
    omega
  · intro s s2 hinv hstep
    obtain ⟨pending, hq, hz⟩ := hinv
    cases hstep with
    | work t rest running h =>
      cases pending with
      | nil =>
        simp only [List.map_nil, List.nil_append] at hq
        cases hr : running with
        | zero => omega
        | succ n =>
          rw [hr, List.replicate_succ] at hq
          cases hq
      | cons p ps =>
        simp only [List.map_cons, List.cons_append] at hq
        injection hq with hq1 hq2
        refine ⟨ps, hq2, fun h0 => ?_⟩
        simp only at h0
        omega
    | sentinel rest running h =>
      cases pending with
      | cons p ps =>
        simp only [List.map_cons, List.cons_append] at hq
        injection hq with hq1 hq2
        cases hq1
      | nil =>
        simp only [List.map_nil, List.nil_append] at hq
        cases hr : running with
        | zero => omega
        | succ n =>
          rw [hr, List.replicate_succ] at hq
          injection hq with hq1 hq2
          refine ⟨[], ?_, fun _ => rfl⟩
          simp only [List.map_nil, List.nil_append]
          rw [hq2]
          simp
  · intro s s2 hstep
    cases hstep with
    | work t rest running h => simp
    | sentinel rest running h => simp
  · intro s hinv hrun
    exact queue_progress s hinv hrun
  · intro s hinv hnostep
    have hrun : s.running = 0 := by
      by_contra hr
      exact hnostep (queue_progress s hinv (by omega))
    obtain ⟨pending, hq, hz⟩ := hinv
    refine ⟨hrun, ?_⟩
    rw [hq, hz hrun, hrun]
    simp

/-- Witness for C7 (amended) at a concrete input: the queue invariant holds
for a one-tag batch with a pool of two workers. -/
theorem sentinel_protocol_witness :
    QueueInv (initialState ["a".toList] 2) :=
  (sentinel_protocol ["a".toList] 2 (by decide)).1

/-! ## Retry policy

`fetch_clan_members` embeds `fetch_clan_members` of src/notScrape.py
(lines 143-194).  The remote interaction is abstracted as an oracle giving
the outcome of each 1-indexed attempt: `.ok` with the member list, or
`.error` with the caught requests.RequestException / ValueError (network
error, 429 or 5xx turned into an HTTPError, malformed JSON).  The loop
`for attempt in range(1, retries + 1)` returns the first success; each
failed attempt stores the error and sleeps `backoff ** attempt`, collected
here as the second component; after the loop the last error is raised once.
The unreachable `assert last_error is not None` path for `retries = 0` is
`.error none`.  `process_clan` embeds the caller in `build_player_dataset`
(lines 259-267): one exception per clan is caught and logged through
`log_failed_clan` as one failure record, and the run continues. -/

def fetch_loop {E M : Type} (oracle : Nat → Except E M) (backoff : ℚ) :
    Nat → Nat → Option E → List ℚ → Except (Option E) M × List ℚ
  | _, 0, last, sleeps => (.error last, sleeps)
  | attempt, r + 1, _, sleeps =>
    match oracle attempt with
    | .ok m => (.ok m, sleeps)
    | .error e =>
      fetch_loop oracle backoff (attempt + 1) r (some e) (sleeps ++ [backoff ^ attempt])

def fetch_clan_members {E M : Type} (retries : Nat) (backoff : ℚ)
    (oracle : Nat → Except E M) : Except (Option E) M × List ℚ :=
  fetch_loop oracle backoff 1 retries none []

def process_clan {A E : Type} (clan_tag country : String)
    (fetch_result : Except E A) : Option A × List (String × String × E) :=
  match fetch_result with
  | .ok members => (some members, [])
  | .error e => (none, [(clan_tag, country, e)])

theorem fetch_loop_ok {E M : Type} (oracle : Nat → Except E M) (backoff : ℚ) (m : M) :
    ∀ (r start : Nat) (last : Option E) (sleeps : List ℚ), 1 ≤ r →
      (∀ i, start ≤ i → i < start + (r - 1) → ∃ e, oracle i = .error e) →
      oracle (start + (r - 1)) = .ok m →
      fetch_loop oracle backoff start r last sleeps
        = (.ok m, sleeps ++ (List.range' start (r - 1)).map (fun i => backoff ^ i)) := by
  intro r
  induction r with
  | zero => intro start last sleeps hr; omega
  | succ r ih =>
    intro start last sleeps _ hfail hok
    rcases Nat.eq_zero_or_pos r with hr0 | hr0
    · subst hr0
      simp only [Nat.add_sub_cancel, Nat.add_zero] at hok
      simp [fetch_loop, hok]
    · have hfirst : ∃ e, oracle start = .error e := by
        apply hfail start (by omega)
        omega
      obtain ⟨e, he⟩ := hfirst
      simp only [fetch_loop, he]
      have hrec := ih (start + 1) (some e) (sleeps ++ [backoff ^ start]) (by omega)
        (fun i hi1 hi2 => hfail i (by omega) (by omega))
        (by
          have harith : start + 1 + (r - 1) = start + (r + 1 - 1) := by omega
          rw [harith]
          exact hok)
      rw [hrec]
      have hrange : List.range' start (r + 1 - 1)
          = start :: List.range' (start + 1) (r - 1) := by
        have h1 : r + 1 - 1 = (r - 1) + 1 := by omega
        rw [h1, List.range'_succ]
      rw [hrange]
      simp

theorem fetch_loop_allfail {E M : Type} (oracle : Nat → Except E M) (backoff : ℚ)
    (err : Nat → E) :
    ∀ (r start : Nat) (last : Option E) (sleeps : List ℚ), 1 ≤ r →
      (∀ i, start ≤ i → i < start + r → oracle i = .error (err i)) →
      fetch_loop oracle backoff start r last sleeps
        = (.error (some (err (start + r - 1))),
           sleeps ++ (List.range' start r).map (fun i => backoff ^ i)) := by
  intro r
  induction r with
  | zero => intro start last sleeps hr; omega
  | succ r ih =>
    intro start last sleeps _ hfail
    have he : oracle start = .error (err start) := hfail start (by omega) (by omega)
    simp only [fetch_loop, he]
    rcases Nat.eq_zero_or_pos r with hr0 | hr0
    · subst hr0
      simp only [fetch_loop]
      simp [List.range'_succ]
    · have hrec := ih (start + 1) (some (err start)) (sleeps ++ [backoff ^ start]) (by omega)
        (fun i hi1 hi2 => hfail i (by omega) (by omega))
      have harith : start + 1 + r - 1 = start + (r + 1) - 1 := by omega
      rw [harith] at hrec
      rw [hrec, List.range'_succ]
      simp

/-- C8: retry policy of fetch_clan_members.  Transient failures are retried
up to the attempt ceiling with exponential backoff, sleeping backoff to the
power attempt after each failed attempt: a unit whose first R-1 attempts
fail and whose R-th succeeds returns the successful member list with no
failure record at the caller, having slept backoff to the powers 1..R-1; a
unit whose R attempts all fail raises the last error exactly once, which the
caller converts into exactly one failure record, having slept backoff to the
powers 1..R. -/
theorem fetch_clan_members_retry {E M : Type} (R : Nat) (hR : 1 ≤ R)
    (backoff : ℚ) (oracle : Nat → Except E M) :
    (∀ (m : M), (∀ i, 1 ≤ i → i < R → ∃ e, oracle i = .error e) → oracle R = .ok m →
      fetch_clan_members R backoff oracle
        = (.ok m, (List.range' 1 (R - 1)).map (fun i => backoff ^ i)) ∧
      ∀ (tag country : String),
        process_clan tag country (fetch_clan_members R backoff oracle).1
          = (some m, [])) ∧
    (∀ (err : Nat → E), (∀ i, 1 ≤ i → i ≤ R → oracle i = .error (err i)) →
      fetch_clan_members R backoff oracle
        = (.error (some (err R)), (List.range' 1 R).map (fun i => backoff ^ i)) ∧
      ∀ (tag country : String),
        process_clan tag country (fetch_clan_members R backoff oracle).1
          = (none, [(tag, country, some (err R))])) := by
  constructor
  · intro m hfail hok
    have h := fetch_loop_ok oracle backoff m R 1 none [] hR
      (fun i hi1 hi2 => hfail i hi1 (by omega))
      (by
        have harith : 1 + (R - 1) = R := by omega
        rw [harith]
        exact hok)
    unfold fetch_clan_members
    rw [h]
    refine ⟨by simp, ?_⟩
    intro tag country
    rfl
  · intro err hfail
    have h := fetch_loop_allfail oracle backoff err R 1 none [] hR
      (fun i hi1 hi2 => hfail i hi1 (by omega))
    have harith : 1 + R - 1 = R := by omega
    rw [harith] at h
    unfold fetch_clan_members
    rw [h]
    refine ⟨by simp, ?_⟩
    intro tag country
    rfl

/-- Witness for C8 at a concrete input: attempt ceiling 3, backoff base 3/2,
an oracle failing the first two attempts and succeeding on the third. -/
theorem fetch_clan_members_retry_witness :
    fetch_clan_members 3 ((3 : ℚ) / 2)
        (fun i => if i < 3 then Except.error i else Except.ok "members")
      = (.ok "members", [(3 : ℚ) / 2, 9 / 4]) := by
  have h := ((fetch_clan_members_retry 3 (by decide) ((3 : ℚ) / 2)
      (fun i => if i < 3 then Except.error i else Except.ok "members")).1 "members"
      (fun i hi1 hi2 => ⟨i, by simp [hi2]⟩) (by simp)).1
  rw [h]
  norm_num [List.range']

end ClashBot
